import Mathlib

/-!
Verification development for the profile-card stats updater
(`update_profile.py`).  The program's core is embedded shallowly:

* the GraphQL client `gql` with its retry loop,
* the query counters (`count_query`),
* the cache-backed heavy commit/LOC aggregator
  (`init_cache_if_needed`, `get_repo_commit_total`,
  `scan_repo_history`, `heavy_stats`),
* the stats assembly in `main` and the LOC line of
  `build_stats_container`.

Machine-level details that the claims do not touch (actual HTTP
transport, sha256 as a concrete bit-level function, SVG XML surgery)
are abstracted: sha256 appears as an opaque fingerprint function
carried in the environment, the network as response oracles.
-/

/-! ## String infrastructure

The cache file is plain text: lines of space-separated fields
(`hash total my add del`).  Python reads it with `str.split()` (split
on whitespace runs) and `int(...)`, and writes it back with f-string
formatting of decimal integers.  We model these operations on
`List Char` with structural recursion so that concrete runs reduce in
the kernel. -/

/-- Decimal digit character for a value `d < 10` (`chr(48 + d)`). -/
def digitChar (d : Nat) : Char := Char.ofNat (48 + d)

/-- Decimal digits of `n`, most significant first; `fuel` bounds the
recursion (any `fuel ≥ n` is exact for `n ≥ 1`). -/
def natDigitsAux : Nat → Nat → List Char
  | 0, _ => []
  | _, 0 => []
  | fuel + 1, n + 1 => natDigitsAux fuel ((n + 1) / 10) ++ [digitChar ((n + 1) % 10)]

/-- Decimal rendering of a natural number, as produced by Python
f-string formatting of a non-negative `int`. -/
def natRender (n : Nat) : String :=
  if n = 0 then "0" else String.mk (natDigitsAux (n + 1) n)

/-- Parse an accumulator-threaded run of decimal digit characters;
fails on the first non-digit.  Models the digit loop of `int(...)`
restricted to plain unsigned decimals (the only form the program ever
writes). -/
def parseDigits : List Char → Nat → Option Nat
  | [], acc => some acc
  | c :: cs, acc =>
    if c.isDigit then parseDigits cs (acc * 10 + (c.toNat - 48)) else none

/-- Parse a field as a natural number (`int(field)` on the canonical
unsigned decimals the program writes); empty strings fail. -/
def parseNat (s : String) : Option Nat :=
  match s.data with
  | [] => none
  | l => parseDigits l 0

/-- Whitespace split of a character stream (Python `str.split()` with
no argument): whitespace runs separate fields, leading/trailing
whitespace ignored.  `cur` is the current field accumulated in
reverse. -/
def splitWsAux : List Char → List Char → List String
  | [], cur => if cur.isEmpty then [] else [String.mk cur.reverse]
  | c :: cs, cur =>
    if c.isWhitespace then
      if cur.isEmpty then splitWsAux cs []
      else String.mk cur.reverse :: splitWsAux cs []
    else splitWsAux cs (c :: cur)

/-- Python `line.split()`. -/
def splitWs (s : String) : List String := splitWsAux s.data []

/-- Split a character stream on a separator character, keeping empty
parts (Python `str.split(sep)`). -/
def splitOnCharAux (sep : Char) : List Char → List (List Char)
  | [] => [[]]
  | c :: cs =>
    if c = sep then [] :: splitOnCharAux sep cs
    else
      match splitOnCharAux sep cs with
      | [] => [[c]]
      | p :: ps => (c :: p) :: ps

/-- Python `full.split("/")` followed by unpacking into exactly two
names (`owner, repo = full.split("/")`); `none` models the
`ValueError` raised when the identity string does not have exactly one
slash. -/
def split_slash (s : String) : Option (String × String) :=
  match splitOnCharAux '/' s.data with
  | [a, b] => some (String.mk a, String.mk b)
  | _ => none

/-- ASCII lowering of a string, character by character, modelling
Python `str.lower()` on the ASCII logins the program compares. -/
def lowerString (s : String) : String := String.mk (s.data.map Char.toLower)

/-- Substring test on character streams (Python `needle in hay`). -/
def containsSub (needle : List Char) : List Char → Bool
  | [] => needle.isEmpty
  | c :: cs => needle.isPrefixOf (c :: cs) || containsSub needle cs

/-- Whitespace-free nonempty character runs: the shape of every field
the program ever writes to the cache file. -/
def goodChars (f : List Char) : Prop := f ≠ [] ∧ ∀ c ∈ f, c.isWhitespace = false

/-- Space-joined concatenation of fields, the character stream of one
cache line as the program writes it. -/
def joinChars : List (List Char) → List Char
  | [] => []
  | [f] => f
  | f :: g :: rest => f ++ ' ' :: joinChars (g :: rest)

/-- Parse one cache entry line:
`repo_hash, prev_total, prev_my, prev_add, prev_del = line.split()`
followed by `int(...)` on the four numeric fields; `none` models the
`ValueError` raised on any malformed line. -/
def parseLine (line : String) : Option (String × Nat × Nat × Nat × Nat) :=
  match splitWs line with
  | [h, t, m, a, d] =>
    match parseNat t, parseNat m, parseNat a, parseNat d with
    | some tv, some mv, some av, some dv => some (h, tv, mv, av, dv)
    | _, _, _, _ => none
  | _ => none

/-- Render one cache entry line exactly as `heavy_stats` writes it:
`f"{hash} {total} {my} {add} {del}"` (the trailing newline is implicit
in the line-list representation of the file). -/
def renderLine (h : String) (t m a d : Nat) : String :=
  h ++ " " ++ natRender t ++ " " ++ natRender m ++ " " ++ natRender a ++ " " ++ natRender d

/-! ## Remote query client (`gql`)

One call to `gql(query, variables, tag)` makes up to `MAX_RETRIES`
attempts.  Each attempt is summarized by what the transport hands
back: a network-level failure (`requests.Timeout` /
`requests.ConnectionError`), or an HTTP response with a status code
and — when the body is examined — either a JSON parse failure or a
parsed GraphQL envelope with an error list and a payload.  The
environment supplies the outcome of attempt `k` through a script
function, so one call is `gql maxRetries script`. -/

/-- Body of a 200 response: either `r.json()` raises (malformed), or
it yields a GraphQL envelope with an `errors` list and the payload. -/
inductive GqlBody (α : Type) where
  | malformed
  | ok (errors : List String) (payload : α)
deriving DecidableEq

/-- Outcome of one HTTP attempt as seen by `gql`. -/
inductive HttpAttempt (α : Type) where
  | netErr
  | resp (status : Nat) (body : GqlBody α)
deriving DecidableEq

/-- Exceptions `gql` can surface.  `noAttempts` is the final
`RuntimeError(f"{tag} failed without exception")`, reachable only when
`MAX_RETRIES` is configured to `0`. -/
inductive GqlError where
  | httpStatus (status : Nat)
  | graphqlErrors (messages : List String)
  | network
  | malformedResponse
  | noAttempts
deriving DecidableEq

/-- Observable side effects of one `gql` call: how many attempts were
made and the backoff exponents slept between attempts (a sleep of
`RETRY_BACKOFF ** k` seconds is recorded as `k`; the list being
exactly consecutive exponents is the no-jitter property). -/
structure GqlTrace where
  attempts : Nat
  sleeps : List Nat
deriving DecidableEq

/-- Evaluation of a single attempt as if it were the final one, i.e.
the exception this attempt raises (or the payload it returns).  In the
source every raise happens inside the `try` block, so on non-final
attempts the generic `except Exception` handler turns all of these
errors into a sleep-and-retry; the dedicated `502` and rate-limit
branches sleep and retry as well, so before the final attempt every
branch behaves identically.  On the final attempt the `attempt <
MAX_RETRIES` guards are false and each branch raises exactly the error
computed here. -/
def gqlStep {α : Type} : HttpAttempt α → Except GqlError α
  | .netErr => .error .network
  | .resp status body =>
    if status ≠ 200 then .error (.httpStatus status)
    else
      match body with
      | .malformed => .error .malformedResponse
      | .ok errors payload =>
        if errors.isEmpty then .ok payload else .error (.graphqlErrors errors)

/-- Retry loop of `gql`: `remaining` attempts left, the current one
numbered `attempt` (starting at 1 as in
`for attempt in range(1, MAX_RETRIES + 1)`).  A failing attempt with
budget left sleeps `RETRY_BACKOFF ** attempt` and retries; a failing
final attempt raises; exhausting an empty budget raises the fallback
error. -/
def gqlAux {α : Type} (script : Nat → HttpAttempt α) :
    Nat → Nat → Except GqlError α × GqlTrace
  | 0, _ => (.error .noAttempts, ⟨0, []⟩)
  | remaining + 1, attempt =>
    match gqlStep (script attempt) with
    | .ok a => (.ok a, ⟨1, []⟩)
    | .error e =>
      if remaining = 0 then (.error e, ⟨1, []⟩)
      else
        let r := gqlAux script remaining (attempt + 1)
        (r.1, ⟨r.2.attempts + 1, attempt :: r.2.sleeps⟩)

/-- One call to `gql`: a fresh retry budget of `maxRetries` attempts,
numbered from 1. -/
def gql {α : Type} (maxRetries : Nat) (script : Nat → HttpAttempt α) :
    Except GqlError α × GqlTrace :=
  gqlAux script maxRetries 1

/-- Rate-limit detection:
`'rate limit' in ' | '.join(messages).lower()`.  The needle contains
no `' | '`, so it matches the join iff it matches one of the
messages. -/
def hasRateLimit (errors : List String) : Bool :=
  errors.any (fun m => containsSub "rate limit".data (lowerString m).data)

/-- Attempt outcomes the specification classifies as transient:
network timeouts/connection errors, gateway 5xx statuses, and
rate-limit messages in the error payload. -/
def isTransientAttempt {α : Type} : HttpAttempt α → Bool
  | .netErr => true
  | .resp status body =>
    (decide (500 ≤ status) && decide (status < 600)) ||
      (status == 200 &&
        match body with
        | .ok errors _ => hasRateLimit errors
        | .malformed => false)

/-- `count_query(name)` increments the named counter by one. -/
def count_query (counter : Nat) : Nat := counter + 1

/-- Response payload of the zero-width commit-count probe:
`defaultBranchRef` either absent or carrying `history.totalCount`. -/
structure ProbeResp where
  ref : Option Nat
deriving DecidableEq

/-- Client-level `get_repo_commit_total`: one `count_query`
("loc_repo_scan") increment, then one `gql` call; an absent default
branch ref yields 0.  Returns the result together with the new counter
value and the attempt trace of the underlying call. -/
def get_repo_commit_total_call (maxRetries : Nat)
    (script : Nat → HttpAttempt ProbeResp) (loc_repo_scan : Nat) :
    Except GqlError Nat × Nat × GqlTrace :=
  let counter := count_query loc_repo_scan
  match gql maxRetries script with
  | (.ok d, tr) =>
    (match d.ref with
     | none => (.ok 0, counter, tr)
     | some t => (.ok t, counter, tr))
  | (.error e, tr) => (.error e, counter, tr)

/-! ## Heavy scan (commits & LOC aggregator)

The aggregator is embedded in a value-level world where every remote
call succeeds and returns what a response oracle dictates (retry
behaviour lives in the `gql` layer above; a failing call would simply
propagate and abort the run).  The environment fixes the tracked user,
the fingerprint function (sha256 hexdigest, abstracted to an opaque
`String → String`), the repository listing returned by
`collect_repo_full_names`, the per-repository remote data, the
`FORCE_CACHE` flag and the header timestamp.  The cache file is a list
of lines (`none` = file absent); the trailing newline of each written
line is implicit in the representation. -/

/-- One commit node of a history page: `author.user.login` (absent
when the author has no resolvable account), `additions`,
`deletions`. -/
structure Commit where
  authorLogin : Option String
  additions : Nat
  deletions : Nat
deriving DecidableEq

/-- Remote state of one repository: the `defaultBranchRef` as seen by
the zero-width count probe (`none` = no default branch, otherwise
`history.totalCount`), and the commit history in pagination order
(100-commit pages; the envelope's `hasNextPage` is true exactly while
further pages remain). -/
structure RepoRemote where
  probe : Option Nat
  pages : List (List Commit)
deriving DecidableEq

/-- Ambient configuration and remote world of one aggregator run. -/
structure Env where
  user : String
  hash : String → String
  repos : List String
  remote : String → RepoRemote
  forceCache : Bool
  generated : String

/-- `CACHE_COMMENT_LINES`. -/
def CACHE_COMMENT_LINES : Nat := 5

/-- The five header lines written by `write_cache_header`. -/
def cacheHeader (user generated : String) : List String :=
  ["Cache File for LOC / Commit Stats",
   "Format: sha256(repo) totalCommits myCommits additions deletions",
   "User: " ++ user,
   "Generated: " ++ generated,
   "---"]

/-- One zeroed entry, `f"{sha256(full)} 0 0 0 0"`. -/
def zeroLine (env : Env) (full : String) : String :=
  renderLine (env.hash full) 0 0 0 0

/-- Full rebuild: fresh header plus one zeroed entry per listed
repository, in listing order. -/
def rebuildCache (env : Env) : List String :=
  cacheHeader env.user env.generated ++ env.repos.map (zeroLine env)

/-- `init_cache_if_needed(repos_edges)`: rebuild when the force flag
is set or the file is absent; otherwise rebuild exactly when the entry
count disagrees with the live listing; otherwise leave the file
untouched. -/
def init_cache_if_needed (env : Env) (cache : Option (List String)) : List String :=
  match cache with
  | none => rebuildCache env
  | some lines =>
    if env.forceCache then rebuildCache env
    else if (lines.drop CACHE_COMMENT_LINES).length ≠ env.repos.length then rebuildCache env
    else lines

/-- Attribution test of `scan_repo_history`:
`node["author"]["user"] and node["author"]["user"]["login"].lower() == USER_NAME.lower()`. -/
def commitMatches (user : String) (c : Commit) : Bool :=
  match c.authorLogin with
  | none => false
  | some l => lowerString l == lowerString user

/-- Accumulation over one history page: the inner `for edge in
history["edges"]` loop, threading `(my_commits, additions,
deletions)`. -/
def pageTally (user : String) (page : List Commit) : Nat × Nat × Nat :=
  page.foldl
    (fun acc c =>
      if commitMatches user c then (acc.1 + 1, acc.2.1 + c.additions, acc.2.2 + c.deletions)
      else acc)
    (0, 0, 0)

/-- The `while True` pagination loop of `scan_repo_history`: pages are
consumed in cursor order, one query each, until `hasNextPage` is
false; the first fetch always happens.  Returns the accumulated
`(my_commits, additions, deletions)` and the number of history-paging
queries issued. -/
def scanPages (user : String) : List (List Commit) → (Nat × Nat × Nat) × Nat
  | [] => ((0, 0, 0), 1)
  | [p] => (pageTally user p, 1)
  | p :: q :: rest =>
    let t := pageTally user p
    let r := scanPages user (q :: rest)
    ((t.1 + r.1.1, t.2.1 + r.1.2.1, t.2.2 + r.1.2.2), r.2 + 1)

/-- Query counts the aggregator layer observes: zero-width
commit-count probes and history-paging queries.  (Both increment the
same `loc_repo_scan` counter in the source; the split is what lets the
no-rescan claims be stated.) -/
structure Trace where
  probes : Nat
  histPages : Nat
deriving DecidableEq

instance : Add Trace := ⟨fun a b => ⟨a.probes + b.probes, a.histPages + b.histPages⟩⟩

/-- Value semantics of `get_repo_commit_total(owner, repo)`: an absent
`defaultBranchRef` yields 0, otherwise `history.totalCount`.  (Issues
one probe query, accounted by its callers.) -/
def get_repo_commit_total (env : Env) (full : String) : Nat :=
  match (env.remote full).probe with
  | none => 0
  | some t => t

/-- `scan_repo_history(owner, repo)`: probe the total (one query); a
zero total short-circuits to all-zero results; otherwise page through
the full history.  Returns `(total, my_commits, additions, deletions)`
and the queries issued. -/
def scan_repo_history (env : Env) (full : String) : (Nat × Nat × Nat × Nat) × Trace :=
  let total := get_repo_commit_total env full
  if total = 0 then ((0, 0, 0, 0), ⟨1, 0⟩)
  else
    let r := scanPages env.user (env.remote full).pages
    ((total, r.1.1, r.1.2.1, r.1.2.2), ⟨1, r.2⟩)

/-- Failure modes of `heavy_stats`. -/
inductive HErr where
  | parseError
  | badRepoName
  | guardMismatch
  | outOfFuel
deriving DecidableEq

/-- Outcome of the per-repository body of the `heavy_stats` loop. -/
inductive StepOut where
  | ok (newLine : String) (my add del : Nat) (tr : Trace)
  | restart (tr : Trace)
  | fatal (e : HErr) (tr : Trace)
deriving DecidableEq

/-- Cache-hit-or-rescan half of the loop body of `heavy_stats`: the
cheap probe (`current_total = get_repo_commit_total(...)`), the
`from_cache` comparison against the cached total, a rescan when it
fails, and the appended line recording `expected_hash` with the
freshly probed `current_total`.  Returns the new line, the triple
used, and the queries issued. -/
def repoRefresh (env : Env) (full : String) (prevTotal prevMy prevAdd prevDel : Nat) :
    String × Nat × Nat × Nat × Trace :=
  let currentTotal := get_repo_commit_total env full
  if currentTotal = prevTotal then
    (renderLine (env.hash full) currentTotal prevMy prevAdd prevDel,
     prevMy, prevAdd, prevDel, ⟨1, 0⟩)
  else
    let s := scan_repo_history env full
    (renderLine (env.hash full) currentTotal s.1.2.1 s.1.2.2.1 s.1.2.2.2,
     s.1.2.1, s.1.2.2.1, s.1.2.2.2, Trace.mk 1 0 + s.2)

/-- Body of `for i, full in enumerate(repos)` in `heavy_stats`: parse
the cache line, split the identity, check the stored fingerprint
against the recomputed one (restart while `RECURSION_GUARD ≤ 1`,
fatal otherwise), then hand over to `repoRefresh`. -/
def repoStep (env : Env) (guard : Nat) (full line : String) : StepOut :=
  match parseLine line with
  | none => .fatal .parseError ⟨0, 0⟩
  | some (repoHash, prevTotal, prevMy, prevAdd, prevDel) =>
    match split_slash full with
    | none => .fatal .badRepoName ⟨0, 0⟩
    | some _ =>
      if repoHash ≠ env.hash full then
        if guard > 1 then .fatal .guardMismatch ⟨0, 0⟩
        else .restart ⟨0, 0⟩
      else
        let r := repoRefresh env full prevTotal prevMy prevAdd prevDel
        .ok r.1 r.2.1 r.2.2.1 r.2.2.2.1 r.2.2.2.2

/-- Outcome of the whole per-repository loop. -/
inductive LoopOut where
  | done (updated : List String) (my add del : Nat) (tr : Trace)
  | restart (tr : Trace)
  | fatal (e : HErr) (tr : Trace)
deriving DecidableEq

/-- The `heavy_stats` loop over `zip(repos, repo_lines)` (the source
indexes `repo_lines[i]`; the two line counts are equal at every loop
entry, see `init_cache_count`). -/
def heavyLoop (env : Env) (guard : Nat) : List (String × String) → LoopOut
  | [] => .done [] 0 0 0 ⟨0, 0⟩
  | (full, line) :: rest =>
    match repoStep env guard full line with
    | .restart tr => .restart tr
    | .fatal e tr => .fatal e tr
    | .ok nl m a d tr =>
      match heavyLoop env guard rest with
      | .done ls m2 a2 d2 tr2 => .done (nl :: ls) (m + m2) (a + a2) (d + d2) (tr + tr2)
      | .restart tr2 => .restart (tr + tr2)
      | .fatal e tr2 => .fatal e (tr + tr2)

/-- Cache lines a `heavy_stats` pass works on: the file after
`init_cache_if_needed` plus the re-read-on-mismatch block (source
lines 377–381; the re-check never fires because initialization already
guarantees the count, see `init_cache_count`). -/
def linesAfterInit (env : Env) (cache : Option (List String)) : List String :=
  let lines := init_cache_if_needed env cache
  if (lines.drop CACHE_COMMENT_LINES).length ≠ env.repos.length
  then init_cache_if_needed env (some lines) else lines

/-- Final state of one `heavy_stats` call: the returned quadruple (or
the exception), the cache file on disk, the `RECURSION_GUARD` global
and the query trace. -/
structure HOut where
  res : Except HErr (Nat × Nat × Nat × Int)
  cache : Option (List String)
  guard : Nat
  tr : Trace

/-- One `heavy_stats` activation, with explicit fuel for the
self-recursion (the guard bounds the recursion depth by 3, so fuel 3
is exact; `outOfFuel` is the artifact value for smaller fuel).  On a
fingerprint-mismatch restart the source re-runs
`init_cache_if_needed` and recurses with the incremented guard. -/
def heavyStatsGo (env : Env) : Nat → Nat → Option (List String) → Trace → HOut
  | 0, guard, cache, tr => ⟨.error .outOfFuel, cache, guard, tr⟩
  | fuel + 1, guard, cache, tr =>
    let lines2 := linesAfterInit env cache
    match heavyLoop env guard (env.repos.zip (lines2.drop CACHE_COMMENT_LINES)) with
    | .done updated m a d tr2 =>
      ⟨.ok (m, a, d, (a : Int) - (d : Int)),
       some (lines2.take CACHE_COMMENT_LINES ++ updated), guard, tr + tr2⟩
    | .restart tr2 =>
      heavyStatsGo env fuel (guard + 1)
        (some (init_cache_if_needed env (some lines2))) (tr + tr2)
    | .fatal e tr2 => ⟨.error e, some lines2, guard, tr + tr2⟩

/-- `heavy_stats(login)` as invoked from `main`: fresh
`RECURSION_GUARD = 0`, empty trace. -/
def heavy_stats (env : Env) (cache : Option (List String)) : HOut :=
  heavyStatsGo env 3 0 cache ⟨0, 0⟩

/-! ## Stats assembly (`main`) and the LOC line of
`build_stats_container` -/

/-- Comma insertion of `f"{num:,}"`, walking the digit list from the
least significant digit (`k` digits already emitted). -/
def groupRev : List Char → Nat → List Char
  | [], _ => []
  | c :: cs, k =>
    if k ≠ 0 ∧ k % 3 = 0 then ',' :: c :: groupRev cs (k + 1)
    else c :: groupRev cs (k + 1)

/-- `format_int(num)`: decimal rendering with thousands separators. -/
def format_int (n : Int) : String :=
  let digits := (natRender n.natAbs).data
  let grouped := (groupRev digits.reverse 0).reverse
  if n < 0 then String.mk ('-' :: grouped) else String.mk grouped

/-- The `stats` record `main` hands to the renderer; optional fields
model dict-key presence (`loc_*` keys are set only when heavy mode
ran). -/
structure StatsRec where
  age : String
  repos : Nat
  stars : Nat
  contrib : Nat
  followers : Nat
  commits : Nat
  locAdd : Option Nat
  locDel : Option Nat
  locNet : Option Int
deriving DecidableEq

/-- Assembly done in `main`: `commits = loc_add = loc_del = loc_net =
0`, overwritten from `heavy_stats` only when `DO_HEAVY`; the `loc_*`
keys are added to the dict only when `DO_HEAVY`. -/
def assemble_stats (doHeavy : Bool) (age : String)
    (ownedRepos stars contribRepos followers : Nat)
    (heavy : Nat × Nat × Nat × Int) : StatsRec :=
  { age := age, repos := ownedRepos, stars := stars, contrib := contribRepos,
    followers := followers,
    commits := if doHeavy then heavy.1 else 0,
    locAdd := if doHeavy then some heavy.2.1 else none,
    locDel := if doHeavy then some heavy.2.2.1 else none,
    locNet := if doHeavy then some heavy.2.2.2 else none }

/-- `truncate_text(text, max_chars)`. -/
def truncate_text (text : String) (maxChars : Nat) : String :=
  if text.data.length ≤ maxChars then text
  else if maxChars ≤ 1 then "…"
  else String.mk (text.data.take (maxChars - 1)) ++ "…"

/-- Values of the always-rendered `Lines of Code` tspans
(`loc_data`, `loc_add`, `loc_del`) as computed by
`build_stats_container`: heavy data when the `loc_net` key is present
(`heavy_has_data`), literal placeholders otherwise, then the
`MAX_VALUE_CHAR` truncation pass (15/10/10). -/
def loc_line_values (stats : StatsRec) : String × String × String :=
  let v :=
    if stats.locNet.isSome then
      (format_int (stats.locNet.getD 0),
       "+" ++ format_int (Int.ofNat (stats.locAdd.getD 0)),
       "-" ++ format_int (Int.ofNat (stats.locDel.getD 0)))
    else ("--", "+0", "-0")
  (truncate_text v.1 15, truncate_text v.2.1 10, truncate_text v.2.2 10)

/-! ## Concrete instances used in witnesses and counterexamples -/

/-- Script whose every attempt is an authorization failure (HTTP
401). -/
def script401 : Nat → HttpAttempt Nat := fun _ => .resp 401 (.ok [] 0)

/-- Script with two transient failures (a connection error, then a
rate-limited response) followed by a success carrying payload 7. -/
def scriptTransient : Nat → HttpAttempt Nat
  | 1 => .netErr
  | 2 => .resp 200 (.ok ["API rate limit exceeded"] 0)
  | _ => .resp 200 (.ok [] 7)

/-- Probe script: one network error, then a success reporting a
total-commit count of 5. -/
def scriptProbe : Nat → HttpAttempt ProbeResp
  | 1 => .netErr
  | _ => .resp 200 (.ok [] ⟨some 5⟩)

/-- Opaque fingerprint stand-in used by the concrete environments. -/
def constHash : String → String := fun _ => "f0"

/-- Remote world of the single repository `a/b`: 2 commits on the
default branch, one page, one commit by the tracked user (case
differs), one by another user, one with no resolvable account. -/
def remoteA : String → RepoRemote := fun _ =>
  ⟨some 2, [[⟨some "U", 10, 2⟩, ⟨some "other", 5, 5⟩, ⟨none, 7, 1⟩]]⟩

/-- Environment with one repository and history as in `remoteA`. -/
def envA : Env :=
  ⟨"u", constHash, ["a/b"], remoteA, false, "t0"⟩

/-- Environment whose single repository has no default branch ref. -/
def envB : Env :=
  ⟨"u", constHash, ["a/b"], fun _ => ⟨none, []⟩, false, "t0"⟩

/-- Cache file for `envA` whose stored fingerprint (`x`) disagrees
with the live one (`f0`), with matching entry count. -/
def cacheC1 : Option (List String) :=
  some (cacheHeader "u" "t0" ++ ["x 0 0 0 0"])

/-- The cache file a run of `heavy_stats` on `envA` writes. -/
def cacheA1 : List String :=
  cacheHeader "u" "t0" ++ ["f0 2 1 10 2"]

/-! ### Roundtrip lemmas for the line format -/

theorem digitChar_isDigit : ∀ d, d < 10 → (digitChar d).isDigit = true ∧ (digitChar d).toNat - 48 = d := by
  decide

theorem natDigitsAux_zero (f : Nat) : natDigitsAux f 0 = [] := by
  cases f <;> rfl

theorem parseDigits_append (xs ys : List Char) (acc : Nat) :
    parseDigits (xs ++ ys) acc =
      match parseDigits xs acc with
      | some a => parseDigits ys a
      | none => none := by
  induction xs generalizing acc with
  | nil => simp [parseDigits]
  | cons c cs ih =>
    simp only [List.cons_append, parseDigits]
    by_cases h : c.isDigit
    · simp [h, ih]
    · simp [h]

theorem natDigitsAux_spec : ∀ fuel n, n ≤ fuel → n ≠ 0 →
    parseDigits (natDigitsAux fuel n) 0 = some n ∧ natDigitsAux fuel n ≠ [] := by
  intro fuel
  induction fuel with
  | zero => intro n h h0; omega
  | succ f ih =>
    intro n hle h0
    match n, h0 with
    | n + 1, _ =>
      rw [natDigitsAux]
      have hlt : (n + 1) % 10 < 10 := Nat.mod_lt _ (by omega)
      have hd := digitChar_isDigit _ hlt
      by_cases hq : (n + 1) / 10 = 0
      · have hmod : (n + 1) % 10 = n + 1 := by
          have := Nat.div_add_mod (n + 1) 10
          omega
        rw [hq, natDigitsAux_zero]
        refine ⟨?_, by simp⟩
        simp only [List.nil_append, parseDigits, hd.1, if_true]
        have h2 := hd.2
        rw [show (0 : Nat) * 10 + ((digitChar ((n + 1) % 10)).toNat - 48) =
              (digitChar ((n + 1) % 10)).toNat - 48 by omega, h2, hmod]
      · have hqle : (n + 1) / 10 ≤ f := by
          have : (n + 1) / 10 < n + 1 := Nat.div_lt_self (by omega) (by omega)
          omega
        have hih := ih _ hqle hq
        refine ⟨?_, by simp [hih.2]⟩
        rw [parseDigits_append, hih.1]
        have hdm := Nat.div_add_mod (n + 1) 10
        have h2 := hd.2
        simp only [parseDigits, hd.1, if_true]
        congr 1
        omega

theorem parseNat_natRender (n : Nat) : parseNat (natRender n) = some n := by
  by_cases h : n = 0
  · subst h; decide
  · have hs := natDigitsAux_spec (n + 1) n (by omega) h
    unfold natRender parseNat
    simp only [h, if_false]
    match hm : natDigitsAux (n + 1) n, hs with
    | c :: cs, ⟨h1, _⟩ => exact h1

theorem natDigitsAux_digits : ∀ fuel n c, c ∈ natDigitsAux fuel n → c.isDigit = true := by
  intro fuel
  induction fuel with
  | zero => intro n c h; simp [natDigitsAux] at h
  | succ f ih =>
    intro n c h
    match n with
    | 0 => simp [natDigitsAux] at h
    | n + 1 =>
      rw [natDigitsAux] at h
      rcases List.mem_append.mp h with h | h
      · exact ih _ _ h
      · have hlt : (n + 1) % 10 < 10 := Nat.mod_lt _ (by omega)
        simp at h
        subst h
        exact (digitChar_isDigit _ hlt).1

theorem ws_not_digit (c : Char) (h : c.isWhitespace = true) : c.isDigit = false := by
  simp [Char.isWhitespace] at h
  rcases h with ((h | h) | h) | h <;> subst h <;> decide

theorem natRender_good (n : Nat) : goodChars (natRender n).data := by
  unfold natRender
  by_cases h : n = 0
  · subst h
    refine ⟨by decide, ?_⟩
    intro c hc
    simp only [if_true] at hc
    have : c = '0' := by
      simpa using hc
    subst this; decide
  · simp only [h, if_false]
    have hspec := natDigitsAux_spec (n + 1) n (by omega) h
    refine ⟨hspec.2, ?_⟩
    intro c hc
    have hd := natDigitsAux_digits (n + 1) n c hc
    by_contra hw
    simp only [Bool.not_eq_false] at hw
    rw [ws_not_digit c hw] at hd
    exact Bool.false_ne_true hd

theorem splitWsAux_skip (l : List Char) (cur : List Char)
    (hl : ∀ c ∈ l, c.isWhitespace = false) (rest : List Char) :
    splitWsAux (l ++ rest) cur = splitWsAux rest (l.reverse ++ cur) := by
  induction l generalizing cur with
  | nil => simp
  | cons c cs ih =>
    have hc : c.isWhitespace = false := hl c (by simp)
    simp only [List.cons_append, splitWsAux, hc, if_false, Bool.false_eq_true]
    rw [show cs.append rest = cs ++ rest from rfl,
        ih _ (fun x hx => hl x (by simp [hx]))]
    simp

theorem revNonempty (f : List Char) (h : f ≠ []) : (f.reverse).isEmpty = false := by
  cases hr : f.reverse with
  | nil => exact absurd (List.reverse_eq_nil_iff.mp hr) h
  | cons a b => rfl

theorem splitWsAux_join : ∀ fields : List (List Char),
    (∀ f ∈ fields, goodChars f) →
    splitWsAux (joinChars fields) [] = fields.map String.mk := by
  intro fields
  induction fields with
  | nil => intro h; rfl
  | cons f rest ih =>
    intro h
    have hf := h f (by simp)
    match rest with
    | [] =>
      simp only [joinChars]
      rw [show f = f ++ ([] : List Char) by simp, splitWsAux_skip f [] hf.2]
      simp only [splitWsAux, List.append_nil]
      simp [revNonempty f hf.1]
    | g :: rest2 =>
      simp only [joinChars]
      rw [splitWsAux_skip f [] hf.2]
      simp only [List.append_nil, splitWsAux]
      have hws : (' ' : Char).isWhitespace = true := by decide
      rw [hws]
      simp only [if_true, revNonempty f hf.1, Bool.false_eq_true, if_false]
      rw [ih (fun x hx => h x (by simp [hx]))]
      simp

theorem str_data_append (a b : String) : (a ++ b).data = a.data ++ b.data := rfl

theorem str_mk_data (s : String) : String.mk s.data = s := rfl

theorem renderLine_data (h : String) (t m a d : Nat) :
    (renderLine h t m a d).data =
      joinChars [h.data, (natRender t).data, (natRender m).data,
                 (natRender a).data, (natRender d).data] := by
  simp only [renderLine, str_data_append, joinChars]
  simp [List.append_assoc]

theorem splitWs_renderLine (h : String) (t m a d : Nat) (hh : goodChars h.data) :
    splitWs (renderLine h t m a d) = [h, natRender t, natRender m, natRender a, natRender d] := by
  unfold splitWs
  rw [renderLine_data]
  rw [splitWsAux_join _ ?_]
  · simp [str_mk_data]
  · intro f hf
    simp only [List.mem_cons, List.not_mem_nil, or_false] at hf
    rcases hf with hf | hf | hf | hf | hf <;> subst hf
    · exact hh
    all_goals exact natRender_good _

theorem parseLine_renderLine (h : String) (t m a d : Nat) (hh : goodChars h.data) :
    parseLine (renderLine h t m a d) = some (h, t, m, a, d) := by
  unfold parseLine
  rw [splitWs_renderLine h t m a d hh]
  simp [parseNat_natRender]

/-! ### Retry loop lemmas -/

theorem gqlStep_transient_error {α : Type} (a : HttpAttempt α)
    (h : isTransientAttempt a = true) : ∃ e, gqlStep a = .error e := by
  match a with
  | .netErr => exact ⟨.network, rfl⟩
  | .resp status body =>
    simp only [isTransientAttempt, Bool.or_eq_true, Bool.and_eq_true,
      decide_eq_true_eq, beq_iff_eq] at h
    rcases h with ⟨h5, h6⟩ | ⟨h200, hb⟩
    · refine ⟨.httpStatus status, ?_⟩
      simp [gqlStep, show status ≠ 200 by omega]
    · subst h200
      match body, hb with
      | .ok errors _, hb =>
        have hne : errors ≠ [] := by
          intro he
          subst he
          simp [hasRateLimit] at hb
        refine ⟨.graphqlErrors errors, ?_⟩
        simp [gqlStep, List.isEmpty_iff, hne]

theorem gqlAux_ok_now {α : Type} (script : Nat → HttpAttempt α) (rem att : Nat)
    (hrem : 1 ≤ rem) {a : α} (hok : gqlStep (script att) = .ok a) :
    gqlAux script rem att = (.ok a, ⟨1, []⟩) := by
  match rem, hrem with
  | r + 1, _ => simp [gqlAux, hok]

theorem gqlAux_err_last {α : Type} (script : Nat → HttpAttempt α) (att : Nat)
    {e : GqlError} (herr : gqlStep (script att) = .error e) :
    gqlAux script 1 att = (.error e, ⟨1, []⟩) := by
  simp [gqlAux, herr]

theorem gqlAux_err_skip {α : Type} (script : Nat → HttpAttempt α) :
    ∀ (n rem att : Nat), n < rem →
    (∀ k, k < n → ∃ e, gqlStep (script (att + k)) = .error e) →
    gqlAux script rem att =
      ((gqlAux script (rem - n) (att + n)).1,
       ⟨(gqlAux script (rem - n) (att + n)).2.attempts + n,
        List.range' att n ++ (gqlAux script (rem - n) (att + n)).2.sleeps⟩) := by
  intro n
  induction n with
  | zero => intro rem att h hk; simp
  | succ m ih =>
    intro rem att hlt hk
    match rem, hlt with
    | r + 1, _ =>
      obtain ⟨e, he⟩ := hk 0 (by omega)
      simp only [Nat.add_zero] at he
      have hr0 : r ≠ 0 := by omega
      rw [gqlAux, he]
      simp only [hr0, if_false]
      rw [ih r (att + 1) (by omega)
        (fun k hkm => by
          have := hk (k + 1) (by omega)
          simpa [Nat.add_assoc, Nat.add_comm 1 k] using this)]
      have harr : r + 1 - (m + 1) = r - m := by omega
      have hatt : att + 1 + m = att + (m + 1) := by omega
      rw [harr, hatt]
      refine congrArg _ ?_
      simp only [GqlTrace.mk.injEq]
      constructor
      · omega
      · rw [List.range'_succ]
        simp [hatt]

theorem gql_budget_exhaust {α : Type} (maxR : Nat) (script : Nat → HttpAttempt α)
    (h1 : 1 ≤ maxR)
    (herr : ∀ k, k < maxR → ∃ e, gqlStep (script (k + 1)) = .error e) :
    ∃ e, gqlStep (script maxR) = .error e ∧
      gql maxR script = (.error e, ⟨maxR, List.range' 1 (maxR - 1)⟩) := by
  obtain ⟨e, he⟩ := herr (maxR - 1) (by omega)
  rw [show maxR - 1 + 1 = maxR by omega] at he
  refine ⟨e, he, ?_⟩
  unfold gql
  rw [gqlAux_err_skip script (maxR - 1) maxR 1 (by omega)
    (fun k hkm => by
      obtain ⟨e2, he2⟩ := herr k (by omega)
      exact ⟨e2, by rw [Nat.add_comm 1 k]; exact he2⟩)]
  rw [show maxR - (maxR - 1) = 1 by omega, show 1 + (maxR - 1) = maxR by omega]
  rw [gqlAux_err_last script maxR he]
  simp only []
  refine congrArg _ ?_
  simp only [GqlTrace.mk.injEq]
  exact ⟨by omega, by simp⟩

theorem gql_first_success {α : Type} (maxR j : Nat) (script : Nat → HttpAttempt α)
    (h1 : 1 ≤ j) (h2 : j ≤ maxR)
    (herr : ∀ k, k < j - 1 → ∃ e, gqlStep (script (k + 1)) = .error e)
    {a : α} (hok : gqlStep (script j) = .ok a) :
    gql maxR script = (.ok a, ⟨j, List.range' 1 (j - 1)⟩) := by
  unfold gql
  rw [gqlAux_err_skip script (j - 1) maxR 1 (by omega)
    (fun k hk => by
      obtain ⟨e, he⟩ := herr k hk
      exact ⟨e, by rw [Nat.add_comm 1 k]; exact he⟩)]
  have hj : 1 + (j - 1) = j := by omega
  rw [hj]
  rw [gqlAux_ok_now script (maxR - (j - 1)) j (by omega) hok]
  simp
  omega

/-- Claim C5: transient failures (network errors, gateway 5xx,
rate-limit payloads) occupy the per-call retry budget of `MAX_RETRIES`
attempts; between attempts the program sleeps exactly
`RETRY_BACKOFF ** attempt` for the consecutive attempt numbers
`1, …, j-1` (no jitter); when the budget is exhausted the final
attempt's exception is re-raised.  The budget is fresh per call:
`maxR` and the script are the call's own arguments, no state crosses
calls. -/
theorem gql_transient_retry_policy {α : Type} (maxR j : Nat)
    (script : Nat → HttpAttempt α) (h1 : 1 ≤ j) (h2 : j ≤ maxR)
    (htr : ∀ k, k < j - 1 → isTransientAttempt (script (k + 1)) = true) :
    (∀ a, gqlStep (script j) = .ok a →
        gql maxR script = (.ok a, ⟨j, List.range' 1 (j - 1)⟩))
    ∧ (j = maxR → isTransientAttempt (script j) = true →
        ∃ e, gqlStep (script j) = .error e ∧
          gql maxR script = (.error e, ⟨j, List.range' 1 (j - 1)⟩)) := by
  constructor
  · intro a hok
    exact gql_first_success maxR j script h1 h2
      (fun k hk => gqlStep_transient_error _ (htr k hk)) hok
  · intro hjm hlast
    subst hjm
    obtain ⟨e, he, hg⟩ := gql_budget_exhaust j script h1
      (fun k hk => by
        by_cases hkj : k < j - 1
        · exact gqlStep_transient_error _ (htr k hkj)
        · have : k + 1 = j := by omega
          rw [this]
          exact gqlStep_transient_error _ hlast)
    exact ⟨e, he, hg⟩

/-- Witness for C5 at a concrete script: a connection error, then a
rate-limited response, then a success; three attempts, sleeps at
exponents 1 and 2. -/
theorem gql_transient_retry_policy_witness :
    (1 ≤ 3 ∧ 3 ≤ 3 ∧ (∀ k, k < 3 - 1 → isTransientAttempt (scriptTransient (k + 1)) = true))
    ∧ gql 3 scriptTransient = (.ok 7, ⟨3, List.range' 1 (3 - 1)⟩) :=
  ⟨⟨by decide, by decide, by decide⟩,
   (gql_transient_retry_policy 3 3 scriptTransient (by decide) (by decide)
     (by decide)).1 7 rfl⟩

/-- Counterexample to claim C3 as stated: an authorization failure
(HTTP 401) on the first attempt is not surfaced immediately — the call
makes all three attempts (sleeping in between) before raising it. -/
theorem fatal_error_retried_cex :
    gql 3 script401 = (.error (.httpStatus 401), ⟨3, [1, 2]⟩)
    ∧ ¬ (gql 3 script401).2.attempts = 1 :=
  ⟨rfl, by decide⟩

/-- Amended claim C3: every raise in `gql` happens inside the `try`
block, so non-retryable failures (non-2xx statuses, malformed
responses, non-rate-limit GraphQL errors) are caught by the generic
`except Exception` handler and retried exactly like transient ones;
the failure surfaces (and aborts the run) only on the final attempt of
the budget. -/
theorem nonretryable_consumes_budget {α : Type} (maxR : Nat)
    (script : Nat → HttpAttempt α) (h1 : 1 ≤ maxR)
    (herr : ∀ k, k < maxR → ∃ e, gqlStep (script (k + 1)) = .error e) :
    ∃ e, gqlStep (script maxR) = .error e ∧
      gql maxR script = (.error e, ⟨maxR, List.range' 1 (maxR - 1)⟩) :=
  gql_budget_exhaust maxR script h1 herr

/-- Witness for the amended C3 at the all-401 script. -/
theorem nonretryable_consumes_budget_witness :
    (1 ≤ 3 ∧ (∀ k, k < 3 → ∃ e, gqlStep (script401 (k + 1)) = .error e))
    ∧ ∃ e, gqlStep (script401 3) = .error e ∧
        gql 3 script401 = (.error e, ⟨3, List.range' 1 (3 - 1)⟩) :=
  ⟨⟨by decide, fun _ _ => ⟨.httpStatus 401, rfl⟩⟩,
   nonretryable_consumes_budget 3 script401 (by decide)
     (fun _ _ => ⟨.httpStatus 401, rfl⟩)⟩

/-- Counterexample to claim C4 as stated: a call whose first attempt
fails transiently makes two attempts, yet the `loc_repo_scan` counter
is incremented once, not once per attempt. -/
theorem count_query_per_call_cex :
    get_repo_commit_total_call 3 scriptProbe 0 = (.ok 5, 1, ⟨2, [1]⟩)
    ∧ ¬ (get_repo_commit_total_call 3 scriptProbe 0).2.1 =
        (get_repo_commit_total_call 3 scriptProbe 0).2.2.attempts :=
  ⟨rfl, by decide⟩

/-- Amended claim C4: the named per-query-type counter is incremented
exactly once per query call (the wrappers call `count_query` once,
outside the retry loop of `gql`), regardless of how many attempts the
call's retry budget consumes. -/
theorem count_query_once_per_call (maxR : Nat)
    (script : Nat → HttpAttempt ProbeResp) (qc : Nat) :
    (get_repo_commit_total_call maxR script qc).2.1 = qc + 1 := by
  unfold get_repo_commit_total_call count_query
  rcases hg : gql maxR script with ⟨r, tr⟩
  cases r with
  | ok d =>
    rcases d with ⟨ref⟩
    cases ref <;> simp
  | error e => simp

theorem cacheHeader_length (user generated : String) :
    (cacheHeader user generated).length = CACHE_COMMENT_LINES := rfl

theorem rebuildCache_entries (env : Env) :
    (rebuildCache env).drop CACHE_COMMENT_LINES = env.repos.map (zeroLine env) := by
  unfold rebuildCache
  rw [show CACHE_COMMENT_LINES = (cacheHeader env.user env.generated).length from rfl]
  exact List.drop_left _ _

theorem init_cache_count (env : Env) (cache : Option (List String)) :
    ((init_cache_if_needed env cache).drop CACHE_COMMENT_LINES).length = env.repos.length := by
  unfold init_cache_if_needed
  cases cache with
  | none => rw [rebuildCache_entries]; simp
  | some lines =>
    by_cases hf : env.forceCache
    · simp only [hf, if_true]
      rw [rebuildCache_entries]; simp
    · simp only [hf, if_false, Bool.false_eq_true]
      by_cases hc : (lines.drop CACHE_COMMENT_LINES).length ≠ env.repos.length
      · rw [if_pos hc, rebuildCache_entries]; simp
      · rw [if_neg hc]
        omega

theorem linesAfterInit_eq (env : Env) (cache : Option (List String)) :
    linesAfterInit env cache = init_cache_if_needed env cache := by
  unfold linesAfterInit
  rw [if_neg]
  intro hne
  exact hne (init_cache_count env cache)

theorem linesAfterInit_count (env : Env) (cache : Option (List String)) :
    ((linesAfterInit env cache).drop CACHE_COMMENT_LINES).length = env.repos.length := by
  rw [linesAfterInit_eq]
  exact init_cache_count env cache

theorem repoStep_restart_guard (env : Env) (g : Nat) (full line : String) (tr : Trace)
    (h : repoStep env g full line = .restart tr) : g ≤ 1 := by
  unfold repoStep at h
  split at h
  · simp at h
  · split at h
    · simp at h
    · split at h
      · split at h
        · simp at h
        · omega
      · simp at h

theorem repoStep_guardMismatch (env : Env) (g : Nat) (full line : String) (tr : Trace)
    (h : repoStep env g full line = .fatal .guardMismatch tr) : 1 < g := by
  unfold repoStep at h
  split at h
  · simp at h
  · split at h
    · simp at h
    · split at h
      · split at h
        · omega
        · simp at h
      · simp at h

theorem heavyLoop_restart_guard (env : Env) (g : Nat) :
    ∀ l tr, heavyLoop env g l = .restart tr → g ≤ 1 := by
  intro l
  induction l with
  | nil => intro tr h; simp [heavyLoop] at h
  | cons p rest ih =>
    intro tr h
    rcases p with ⟨full, line⟩
    rw [heavyLoop] at h
    rcases hs : repoStep env g full line with ⟨nl, m, a, d, tr1⟩ | tr1 | ⟨e, tr1⟩ <;>
      rw [hs] at h
    · rcases hr : heavyLoop env g rest with ⟨ls, m2, a2, d2, tr2⟩ | tr2 | ⟨e2, tr2⟩ <;>
        rw [hr] at h <;> simp at h
      exact ih _ hr
    · exact repoStep_restart_guard env g full line tr1 hs
    · simp at h

theorem heavyLoop_guardMismatch (env : Env) (g : Nat) :
    ∀ l tr, heavyLoop env g l = .fatal .guardMismatch tr → 1 < g := by
  intro l
  induction l with
  | nil => intro tr h; simp [heavyLoop] at h
  | cons p rest ih =>
    intro tr h
    rcases p with ⟨full, line⟩
    rw [heavyLoop] at h
    rcases hs : repoStep env g full line with ⟨nl, m, a, d, tr1⟩ | tr1 | ⟨e, tr1⟩ <;>
      rw [hs] at h
    · rcases hr : heavyLoop env g rest with ⟨ls, m2, a2, d2, tr2⟩ | tr2 | ⟨e2, tr2⟩ <;>
        rw [hr] at h <;> simp at h
      obtain ⟨he, -⟩ := h
      subst he
      exact ih _ hr
    · simp at h
    · simp at h
      obtain ⟨he, -⟩ := h
      subst he
      exact repoStep_guardMismatch env g full line tr1 hs

theorem heavyStatsGo_guard_bound (env : Env) :
    ∀ fuel g cache tr, g ≤ 2 →
      (heavyStatsGo env fuel g cache tr).guard ≤ 2 ∧
      ((heavyStatsGo env fuel g cache tr).res = .error .guardMismatch →
        (heavyStatsGo env fuel g cache tr).guard = 2) := by
  intro fuel
  induction fuel with
  | zero =>
    intro g cache tr hg
    refine ⟨hg, ?_⟩
    intro h
    have h2 : (Except.error .outOfFuel : Except HErr (Nat × Nat × Nat × Int)) =
        .error .guardMismatch := h
    simp at h2
  | succ f ih =>
    intro g cache tr hg
    simp only [heavyStatsGo]
    rcases hl : heavyLoop env g (env.repos.zip ((linesAfterInit env cache).drop CACHE_COMMENT_LINES))
      with ⟨u, m, a, d, tr2⟩ | tr2 | ⟨e, tr2⟩
    · refine ⟨hg, ?_⟩
      intro h
      have h2 : (Except.ok (m, a, d, (a : Int) - (d : Int)) : Except HErr (Nat × Nat × Nat × Int)) =
          .error .guardMismatch := h
      simp at h2
    · have hg1 := heavyLoop_restart_guard env g _ _ hl
      exact ih (g + 1) _ _ (by omega)
    · refine ⟨hg, ?_⟩
      intro h
      have h2 : (Except.error e : Except HErr (Nat × Nat × Nat × Int)) =
          .error .guardMismatch := h
      simp only [Except.error.injEq] at h2
      subst h2
      have := heavyLoop_guardMismatch env g _ _ hl
      show g = 2
      omega

theorem repoRefresh_hit (env : Env) (full : String) (pt pm pa pd : Nat)
    (hprobe : get_repo_commit_total env full = pt) :
    repoRefresh env full pt pm pa pd =
      (renderLine (env.hash full) pt pm pa pd, pm, pa, pd, ⟨1, 0⟩) := by
  simp [repoRefresh, hprobe]

theorem repoRefresh_miss (env : Env) (full : String) (pt pm pa pd : Nat)
    (hprobe : get_repo_commit_total env full ≠ pt) :
    repoRefresh env full pt pm pa pd =
      (renderLine (env.hash full) (get_repo_commit_total env full)
         (scan_repo_history env full).1.2.1 (scan_repo_history env full).1.2.2.1
         (scan_repo_history env full).1.2.2.2,
       (scan_repo_history env full).1.2.1, (scan_repo_history env full).1.2.2.1,
       (scan_repo_history env full).1.2.2.2, Trace.mk 1 0 + (scan_repo_history env full).2) := by
  simp [repoRefresh, hprobe]

theorem repoStep_hash_ok (env : Env) (g : Nat) (full line rh : String)
    (pt pm pa pd : Nat)
    (hparse : parseLine line = some (rh, pt, pm, pa, pd))
    (hsplit : (split_slash full).isSome)
    (hhash : rh = env.hash full) :
    repoStep env g full line =
      .ok (repoRefresh env full pt pm pa pd).1 (repoRefresh env full pt pm pa pd).2.1
        (repoRefresh env full pt pm pa pd).2.2.1 (repoRefresh env full pt pm pa pd).2.2.2.1
        (repoRefresh env full pt pm pa pd).2.2.2.2 := by
  subst hhash
  unfold repoStep
  rw [hparse]
  obtain ⟨pr, hs⟩ := Option.isSome_iff_exists.mp hsplit
  rw [hs]
  dsimp only
  rw [if_neg (by simp)]

theorem repoStep_mismatch (env : Env) (g : Nat) (full line rh : String)
    (pt pm pa pd : Nat)
    (hparse : parseLine line = some (rh, pt, pm, pa, pd))
    (hsplit : (split_slash full).isSome)
    (hne : rh ≠ env.hash full) :
    repoStep env g full line =
      (if g > 1 then .fatal .guardMismatch ⟨0, 0⟩ else .restart ⟨0, 0⟩) := by
  unfold repoStep
  rw [hparse]
  obtain ⟨pr, hs⟩ := Option.isSome_iff_exists.mp hsplit
  rw [hs]
  dsimp only
  rw [if_pos hne]

/-- Counterexample to claim C1 as stated: with a single-entry cache
whose stored fingerprint disagrees with the live one (and a matching
entry count, so re-initialization leaves the file untouched), the run
does not fail on the second mismatch — it restarts twice
(`RECURSION_GUARD` reaches 2) and only the third mismatch is fatal. -/
theorem guard_retries_twice_cex :
    (heavy_stats envA cacheC1).res = .error .guardMismatch ∧
    (heavy_stats envA cacheC1).guard = 2 ∧
    ¬ (heavy_stats envA cacheC1).guard ≤ 1 :=
  ⟨rfl, rfl, by decide⟩

/-- Amended claim C1: a fingerprint mismatch re-runs cache
initialization and restarts the aggregation pass, but at most twice:
the final `RECURSION_GUARD` never exceeds 2, and the fatal guard error
occurs exactly when two restarts have already happened, i.e. on the
third mismatch.  The last conjunct: a mismatching entry restarts the
pass while the guard is ≤ 1 and is fatal otherwise. -/
theorem heavy_stats_retry_bound (env : Env) (cache : Option (List String)) :
    (heavy_stats env cache).guard ≤ 2
    ∧ ((heavy_stats env cache).res = .error .guardMismatch →
        (heavy_stats env cache).guard = 2)
    ∧ (∀ g full line rh pt pm pa pd, parseLine line = some (rh, pt, pm, pa, pd) →
        (split_slash full).isSome → rh ≠ env.hash full →
        repoStep env g full line =
          (if g > 1 then .fatal .guardMismatch ⟨0, 0⟩ else .restart ⟨0, 0⟩)) :=
  ⟨(heavyStatsGo_guard_bound env 3 0 cache ⟨0, 0⟩ (by omega)).1,
   (heavyStatsGo_guard_bound env 3 0 cache ⟨0, 0⟩ (by omega)).2,
   fun g full line rh pt pm pa pd hparse hsplit hne =>
     repoStep_mismatch env g full line rh pt pm pa pd hparse hsplit hne⟩

/-- Witness for the amended C1 at the mismatching concrete cache:
the guard bound holds and the fatal run indeed ends with two restarts
recorded. -/
theorem heavy_stats_retry_bound_witness :
    (heavy_stats envA cacheC1).guard ≤ 2 ∧ (heavy_stats envA cacheC1).guard = 2 :=
  ⟨(heavy_stats_retry_bound envA cacheC1).1,
   (heavy_stats_retry_bound envA cacheC1).2.1 rfl⟩

/-- Claim C2: when the cached `totalCommits` equals the freshly probed
total, the repository takes the cache-valid path: no history-paging
query is issued (`histPages = 0`, a single probe), the cached
`(myCommits, additions, deletions)` triple is returned unchanged, and
the rewritten cache entry records exactly that triple with the same
total. -/
theorem cache_valid_reuses_triple (env : Env) (g : Nat) (full line rh : String)
    (pt pm pa pd : Nat)
    (hparse : parseLine line = some (rh, pt, pm, pa, pd))
    (hsplit : (split_slash full).isSome)
    (hhash : rh = env.hash full)
    (hprobe : get_repo_commit_total env full = pt) :
    repoStep env g full line =
      .ok (renderLine (env.hash full) pt pm pa pd) pm pa pd ⟨1, 0⟩ := by
  rw [repoStep_hash_ok env g full line rh pt pm pa pd hparse hsplit hhash,
      repoRefresh_hit env full pt pm pa pd hprobe]

/-- Witness for C2: a repository with cached total 2 matching the live
probe keeps its `(4, 6, 7)` triple and issues no history query. -/
theorem cache_valid_reuses_triple_witness :
    (parseLine "f0 2 4 6 7" = some ("f0", 2, 4, 6, 7)
     ∧ (split_slash "a/b").isSome
     ∧ "f0" = envA.hash "a/b"
     ∧ get_repo_commit_total envA "a/b" = 2)
    ∧ repoStep envA 0 "a/b" "f0 2 4 6 7" =
        .ok (renderLine (envA.hash "a/b") 2 4 6 7) 4 6 7 ⟨1, 0⟩ :=
  ⟨⟨rfl, rfl, rfl, rfl⟩,
   cache_valid_reuses_triple envA 0 "a/b" "f0 2 4 6 7" "f0" 2 4 6 7 rfl rfl rfl rfl⟩

theorem pageTally_aux (user : String) :
    ∀ (page : List Commit) (acc : Nat × Nat × Nat),
      page.foldl
        (fun acc c =>
          if commitMatches user c then (acc.1 + 1, acc.2.1 + c.additions, acc.2.2 + c.deletions)
          else acc) acc =
      (acc.1 + (page.filter (commitMatches user)).length,
       acc.2.1 + ((page.filter (commitMatches user)).map Commit.additions).sum,
       acc.2.2 + ((page.filter (commitMatches user)).map Commit.deletions).sum) := by
  intro page
  induction page with
  | nil => intro acc; simp
  | cons c cs ih =>
    intro acc
    by_cases hc : commitMatches user c
    · simp only [List.foldl_cons, hc, if_true, List.filter_cons_of_pos, ih]
      refine Prod.ext ?_ (Prod.ext ?_ ?_) <;> simp <;> omega
    · have hc2 : commitMatches user c = false := by
        revert hc; cases commitMatches user c <;> simp
      simp [List.filter_cons, hc2, ih]

theorem pageTally_spec (user : String) (page : List Commit) :
    pageTally user page =
      ((page.filter (commitMatches user)).length,
       ((page.filter (commitMatches user)).map Commit.additions).sum,
       ((page.filter (commitMatches user)).map Commit.deletions).sum) := by
  unfold pageTally
  rw [pageTally_aux]
  simp

theorem scanPages_tally (user : String) :
    ∀ pages, (scanPages user pages).1 =
      ((pages.flatten.filter (commitMatches user)).length,
       ((pages.flatten.filter (commitMatches user)).map Commit.additions).sum,
       ((pages.flatten.filter (commitMatches user)).map Commit.deletions).sum) := by
  intro pages
  induction pages with
  | nil => simp [scanPages]
  | cons p rest ih =>
    cases rest with
    | nil => simp [scanPages, pageTally_spec]
    | cons q rest2 =>
      simp only [scanPages]
      rw [pageTally_spec]
      simp only [List.flatten_cons, List.filter_append, List.map_append, List.sum_append,
        List.length_append]
      refine Prod.ext ?_ (Prod.ext ?_ ?_) <;> simp [ih]

/-- Claim C8: during a full history rescan, the accumulated
`(myCommits, additions, deletions)` are exactly the count and sums
over the commits of all pages whose author satisfies `commitMatches` —
a commit is counted iff its author has a resolvable login matching the
tracked account case-insensitively; all other commits (including those
with no resolvable account) contribute nothing and raise no error. -/
theorem scan_attribution (env : Env) (full : String) (t : Nat)
    (hp : (env.remote full).probe = some t) (ht : t ≠ 0) :
    (scan_repo_history env full).1 =
      (t, ((env.remote full).pages.flatten.filter (commitMatches env.user)).length,
       (((env.remote full).pages.flatten.filter (commitMatches env.user)).map Commit.additions).sum,
       (((env.remote full).pages.flatten.filter (commitMatches env.user)).map Commit.deletions).sum)
    ∧ (∀ c : Commit, commitMatches env.user c = true ↔
        ∃ l, c.authorLogin = some l ∧ lowerString l = lowerString env.user) := by
  constructor
  · have h0 : get_repo_commit_total env full = t := by
      unfold get_repo_commit_total
      rw [hp]
    unfold scan_repo_history
    rw [h0]
    dsimp only
    rw [if_neg ht]
    simp [scanPages_tally]
  · intro c
    rcases c with ⟨login, ca, cd⟩
    cases login with
    | none => simp [commitMatches]
    | some l => simp [commitMatches]

/-- Witness for C8 at the concrete single-page history of `envA`: one
matching commit (case-differing login, +10/−2), one commit by another
account, one with no resolvable author. -/
theorem scan_attribution_witness :
    ((envA.remote "a/b").probe = some 2 ∧ (2 : Nat) ≠ 0)
    ∧ (scan_repo_history envA "a/b").1 =
        (2, ((envA.remote "a/b").pages.flatten.filter (commitMatches envA.user)).length,
         (((envA.remote "a/b").pages.flatten.filter (commitMatches envA.user)).map
            Commit.additions).sum,
         (((envA.remote "a/b").pages.flatten.filter (commitMatches envA.user)).map
            Commit.deletions).sum) :=
  ⟨⟨rfl, by decide⟩, (scan_attribution envA "a/b" 2 rfl (by decide)).1⟩

/-- Claim C9: a repository whose default branch ref is absent in the
probe is treated as having zero totals: `scan_repo_history`
short-circuits to `(0,0,0,0)` after the probe alone, and the
aggregator's per-repository step yields the zero triple, records the
all-zero entry, and issues no history-paging query — hence such a
repository contributes nothing to the cross-repository sums.  The
`hwf` hypothesis (a zero-total cache entry carries a zero triple)
holds for every entry the program itself writes. -/
theorem no_default_branch_zero (env : Env) (g : Nat) (full line rh : String)
    (pt pm pa pd : Nat)
    (hparse : parseLine line = some (rh, pt, pm, pa, pd))
    (hsplit : (split_slash full).isSome)
    (hhash : rh = env.hash full)
    (hprobe : (env.remote full).probe = none)
    (hwf : pt = 0 → (pm, pa, pd) = (0, 0, 0)) :
    scan_repo_history env full = ((0, 0, 0, 0), ⟨1, 0⟩)
    ∧ ∃ tr, repoStep env g full line =
        .ok (renderLine (env.hash full) 0 0 0 0) 0 0 0 tr ∧ tr.histPages = 0 := by
  have h0 : get_repo_commit_total env full = 0 := by
    unfold get_repo_commit_total
    rw [hprobe]
  have hscan : scan_repo_history env full = ((0, 0, 0, 0), ⟨1, 0⟩) := by
    unfold scan_repo_history
    rw [h0]
    rfl
  refine ⟨hscan, ?_⟩
  by_cases hz : pt = 0
  · have h3 := hwf hz
    injection h3 with hm h4
    injection h4 with ha hd
    subst hz
    subst hm
    subst ha
    subst hd
    refine ⟨⟨1, 0⟩, ?_, rfl⟩
    rw [repoStep_hash_ok env g full line rh 0 0 0 0 hparse hsplit hhash,
        repoRefresh_hit env full 0 0 0 0 h0]
  · refine ⟨⟨2, 0⟩, ?_, rfl⟩
    rw [repoStep_hash_ok env g full line rh pt pm pa pd hparse hsplit hhash,
        repoRefresh_miss env full pt pm pa pd (by rw [h0]; exact fun he => hz he.symm)]
    rw [hscan, h0]
    rfl

/-- Witness for C9: the branchless repository of `envB` with a zeroed
cache entry yields zeros, records zeros, and pages no history. -/
theorem no_default_branch_zero_witness :
    (parseLine "f0 0 0 0 0" = some ("f0", 0, 0, 0, 0)
     ∧ (split_slash "a/b").isSome
     ∧ "f0" = envB.hash "a/b"
     ∧ (envB.remote "a/b").probe = none)
    ∧ scan_repo_history envB "a/b" = ((0, 0, 0, 0), ⟨1, 0⟩)
    ∧ ∃ tr, repoStep envB 0 "a/b" "f0 0 0 0 0" =
        .ok (renderLine (envB.hash "a/b") 0 0 0 0) 0 0 0 tr ∧ tr.histPages = 0 :=
  ⟨⟨rfl, rfl, rfl, rfl⟩,
   no_default_branch_zero envB 0 "a/b" "f0 0 0 0 0" "f0" 0 0 0 0 rfl rfl rfl rfl
     (fun _ => rfl)⟩

theorem heavyLoop_done_length (env : Env) (g : Nat) :
    ∀ l updated m a d tr, heavyLoop env g l = .done updated m a d tr →
      updated.length = l.length := by
  intro l
  induction l with
  | nil =>
    intro updated m a d tr h
    simp [heavyLoop] at h
    simp [h.1]
  | cons p rest ih =>
    intro updated m a d tr h
    rcases p with ⟨full, line⟩
    rw [heavyLoop] at h
    rcases hs : repoStep env g full line with ⟨nl, m1, a1, d1, tr1⟩ | tr1 | ⟨e, tr1⟩ <;>
      rw [hs] at h
    · rcases hr : heavyLoop env g rest with ⟨ls, m2, a2, d2, tr2⟩ | tr2 | ⟨e2, tr2⟩ <;>
        rw [hr] at h <;> simp at h
      obtain ⟨hu, -⟩ := h
      subst hu
      simp [ih _ _ _ _ _ hr]
    · simp at h
    · simp at h

theorem heavyStatsGo_ok_count (env : Env) :
    ∀ fuel g cache tr r out,
      (heavyStatsGo env fuel g cache tr).res = .ok r →
      (heavyStatsGo env fuel g cache tr).cache = some out →
      (out.drop CACHE_COMMENT_LINES).length = env.repos.length := by
  intro fuel
  induction fuel with
  | zero =>
    intro g cache tr r out hres hcache
    have h2 : (Except.error .outOfFuel : Except HErr (Nat × Nat × Nat × Int)) = .ok r := hres
    simp at h2
  | succ f ih =>
    intro g cache tr r out hres hcache
    simp only [heavyStatsGo] at hres hcache
    rcases hl : heavyLoop env g
        (env.repos.zip ((linesAfterInit env cache).drop CACHE_COMMENT_LINES))
      with ⟨u, m, a, d, tr2⟩ | tr2 | ⟨e, tr2⟩ <;> rw [hl] at hres hcache
    · have hout : (linesAfterInit env cache).take CACHE_COMMENT_LINES ++ u = out := by
        have h2 : (some ((linesAfterInit env cache).take CACHE_COMMENT_LINES ++ u) :
            Option (List String)) = some out := hcache
        simpa using h2
      have hM : ((linesAfterInit env cache).drop CACHE_COMMENT_LINES).length =
          env.repos.length := linesAfterInit_count env cache
      have hu : u.length =
          (env.repos.zip ((linesAfterInit env cache).drop CACHE_COMMENT_LINES)).length :=
        heavyLoop_done_length env g _ _ _ _ _ _ hl
      rw [← hout]
      simp only [List.length_zip, List.length_drop] at hu
      simp only [List.length_drop, List.length_append, List.length_take] at hM ⊢
      omega
    · exact ih _ _ _ r out hres hcache
    · have h2 : (Except.error e : Except HErr (Nat × Nat × Nat × Int)) = .ok r := hres
      simp at h2

/-- Claim C6: whenever the cache file is absent, the force-rebuild
flag is set, or the stored entry count differs from the live listing
length, initialization rebuilds the cache to a fresh header plus
exactly one zeroed entry per listed repository, in listing order,
before any result is computed; and after every successful aggregation
pass the written file's entry count equals the live repository
count. -/
theorem cache_rebuild_entry_count (env : Env) (cache : Option (List String)) :
    ((cache = none ∨ env.forceCache = true ∨
        (∃ lines, cache = some lines ∧
          (lines.drop CACHE_COMMENT_LINES).length ≠ env.repos.length)) →
      init_cache_if_needed env cache = rebuildCache env
      ∧ (rebuildCache env).drop CACHE_COMMENT_LINES = env.repos.map (zeroLine env)
      ∧ (env.repos.map (zeroLine env)).length = env.repos.length)
    ∧ (∀ r out, (heavy_stats env cache).res = .ok r →
        (heavy_stats env cache).cache = some out →
        (out.drop CACHE_COMMENT_LINES).length = env.repos.length) := by
  constructor
  · intro h
    refine ⟨?_, rebuildCache_entries env, by simp⟩
    unfold init_cache_if_needed
    rcases h with h | h | ⟨lines, hl, hc⟩
    · subst h; rfl
    · cases cache with
      | none => rfl
      | some lines => simp [h]
    · subst hl
      by_cases hf : env.forceCache
      · simp [hf]
      · simp only [hf, Bool.false_eq_true, if_false]
        rw [if_pos hc]
  · intro r out hres hcache
    exact heavyStatsGo_ok_count env 3 0 cache ⟨0, 0⟩ r out hres hcache

/-- Witness for C6: an absent cache for `envA` is rebuilt to one
zeroed entry, and the successful run's written file has exactly one
entry for the one listed repository. -/
theorem cache_rebuild_entry_count_witness :
    (init_cache_if_needed envA none = rebuildCache envA
     ∧ (rebuildCache envA).drop CACHE_COMMENT_LINES = envA.repos.map (zeroLine envA)
     ∧ (envA.repos.map (zeroLine envA)).length = envA.repos.length)
    ∧ (((cacheHeader "u" "t0" ++ ["f0 2 1 10 2"]).drop CACHE_COMMENT_LINES).length =
        envA.repos.length) :=
  ⟨(cache_rebuild_entry_count envA none).1 (Or.inl rfl),
   (cache_rebuild_entry_count envA none).2 (1, 10, 2, 8)
     (cacheHeader "u" "t0" ++ ["f0 2 1 10 2"]) rfl rfl⟩

/-- Claim C10: with heavy mode disabled the assembled stats record has
`commits = 0` and carries none of the `loc_add`/`loc_del`/`loc_net`
keys, and the renderer still fills the always-emitted Lines of Code
tspans with the literal placeholders `--`, `+0`, `-0`. -/
theorem heavy_disabled_placeholders (age : String)
    (ownedRepos stars contribRepos followers : Nat) (heavy : Nat × Nat × Nat × Int) :
    (assemble_stats false age ownedRepos stars contribRepos followers heavy).commits = 0
    ∧ (assemble_stats false age ownedRepos stars contribRepos followers heavy).locAdd = none
    ∧ (assemble_stats false age ownedRepos stars contribRepos followers heavy).locDel = none
    ∧ (assemble_stats false age ownedRepos stars contribRepos followers heavy).locNet = none
    ∧ loc_line_values (assemble_stats false age ownedRepos stars contribRepos followers heavy) =
        ("--", "+0", "-0") :=
  ⟨rfl, rfl, rfl, rfl, rfl⟩

theorem trace_add_mk (p1 h1 p2 h2 : Nat) :
    (Trace.mk p1 h1) + (Trace.mk p2 h2) = ⟨p1 + p2, h1 + h2⟩ := rfl

theorem repoStep_ok_shape (env : Env) (g : Nat) (full line : String)
    (nl : String) (m a d : Nat) (tr : Trace)
    (h : repoStep env g full line = .ok nl m a d tr) :
    nl = renderLine (env.hash full) (get_repo_commit_total env full) m a d
    ∧ (split_slash full).isSome := by
  unfold repoStep at h
  rcases hp : parseLine line with _ | ⟨rh, pt, pm, pa, pd⟩ <;> rw [hp] at h
  · simp at h
  · rcases hs : split_slash full with _ | pr <;> rw [hs] at h
    · simp at h
    · refine ⟨?_, by rfl⟩
      dsimp only at h
      by_cases hh : rh ≠ env.hash full
      · rw [if_pos hh] at h
        split at h <;> simp at h
      · rw [if_neg hh] at h
        simp only [StepOut.ok.injEq] at h
        obtain ⟨h1, h2, h3, h4, h5⟩ := h
        subst h1
        subst h2
        subst h3
        subst h4
        by_cases hc : get_repo_commit_total env full = pt
        · rw [repoRefresh_hit env full pt pm pa pd hc, hc]
        · rw [repoRefresh_miss env full pt pm pa pd hc]

theorem heavyLoop_replay (env : Env) (hhash : ∀ s, goodChars (env.hash s).data) :
    ∀ (fulls lns updated : List String) (g g2 m a d : Nat) (tr : Trace),
      heavyLoop env g (fulls.zip lns) = .done updated m a d tr →
      heavyLoop env g2 (fulls.zip updated) = .done updated m a d ⟨updated.length, 0⟩ := by
  intro fulls
  induction fulls with
  | nil =>
    intro lns updated g g2 m a d tr h
    simp only [List.zip_nil_left, heavyLoop] at h ⊢
    simp only [LoopOut.done.injEq] at h
    obtain ⟨h1, h2, h3, h4, -⟩ := h
    subst h1
    subst h2
    subst h3
    subst h4
    rfl
  | cons full fs ih =>
    intro lns updated g g2 m a d tr h
    cases lns with
    | nil =>
      rw [List.zip_nil_right] at h
      simp only [heavyLoop, LoopOut.done.injEq] at h
      obtain ⟨h1, h2, h3, h4, -⟩ := h
      subst h1
      subst h2
      subst h3
      subst h4
      rw [List.zip_nil_right]
      rfl
    | cons ln ls =>
      rw [List.zip_cons_cons, heavyLoop] at h
      rcases hs : repoStep env g full ln with ⟨nl, m1, a1, d1, tr1⟩ | tr1 | ⟨e, tr1⟩ <;>
        rw [hs] at h
      · rcases hr : heavyLoop env g (fs.zip ls) with ⟨ls2, m2, a2, d2, tr2⟩ | tr2 | ⟨e2, tr2⟩ <;>
          rw [hr] at h <;> simp only [LoopOut.done.injEq] at h
        · obtain ⟨h1, h2, h3, h4, -⟩ := h
          subst h1
          subst h2
          subst h3
          subst h4
          obtain ⟨hnl, hsplit⟩ := repoStep_ok_shape env g full ln nl m1 a1 d1 tr1 hs
          have hstep2 : repoStep env g2 full nl = .ok nl m1 a1 d1 ⟨1, 0⟩ := by
            rw [hnl]
            exact cache_valid_reuses_triple env g2 full _ (env.hash full)
              (get_repo_commit_total env full) m1 a1 d1
              (parseLine_renderLine _ _ _ _ _ (hhash full)) hsplit rfl rfl
          rw [List.zip_cons_cons, heavyLoop, hstep2,
            ih ls ls2 g g2 m2 a2 d2 tr2 hr]
          dsimp only
          rw [trace_add_mk]
          simp [Nat.add_comm]
        · exact absurd h (by simp)
        · exact absurd h (by simp)
      · simp at h
      · simp at h

theorem heavyStatsGo_idem (env : Env) (hforce : env.forceCache = false)
    (hhash : ∀ s, goodChars (env.hash s).data) :
    ∀ fuel g cache tr r c1,
      (heavyStatsGo env fuel g cache tr).res = .ok r →
      (heavyStatsGo env fuel g cache tr).cache = some c1 →
      (heavy_stats env (some c1)).res = .ok r
      ∧ (heavy_stats env (some c1)).cache = some c1
      ∧ (heavy_stats env (some c1)).tr.histPages = 0 := by
  intro fuel
  induction fuel with
  | zero =>
    intro g cache tr r c1 hres hcache
    have h2 : (Except.error .outOfFuel : Except HErr (Nat × Nat × Nat × Int)) = .ok r := hres
    simp at h2
  | succ f ih =>
    intro g cache tr r c1 hres hcache
    simp only [heavyStatsGo] at hres hcache
    rcases hl : heavyLoop env g
        (env.repos.zip ((linesAfterInit env cache).drop CACHE_COMMENT_LINES))
      with ⟨u, m, a, d, tr2⟩ | tr2 | ⟨e, tr2⟩ <;> rw [hl] at hres hcache
    · have hres2 : (Except.ok (m, a, d, (a : Int) - (d : Int)) :
          Except HErr (Nat × Nat × Nat × Int)) = .ok r := hres
      injection hres2 with hr
      subst hr
      have hcache2 : (some ((linesAfterInit env cache).take CACHE_COMMENT_LINES ++ u) :
          Option (List String)) = some c1 := hcache
      injection hcache2 with hc
      subst hc
      have hMdrop : ((linesAfterInit env cache).drop CACHE_COMMENT_LINES).length =
          env.repos.length := linesAfterInit_count env cache
      have hulen : u.length = env.repos.length := by
        have h1 := heavyLoop_done_length env g _ _ _ _ _ _ hl
        simp only [List.length_zip, hMdrop] at h1
        simp [h1]
      have hshort : ¬ CACHE_COMMENT_LINES ≤ (linesAfterInit env cache).length → u = [] := by
        intro hL5
        have h3 : ((linesAfterInit env cache).drop CACHE_COMMENT_LINES).length =
            (linesAfterInit env cache).length - CACHE_COMMENT_LINES := List.length_drop ..
        apply List.eq_nil_of_length_eq_zero
        omega
      have hc1drop :
          (((linesAfterInit env cache).take CACHE_COMMENT_LINES ++ u).drop
            CACHE_COMMENT_LINES) = u := by
        rw [List.drop_append_eq_append_drop]
        rw [List.drop_eq_nil_of_le (by simp [List.length_take])]
        rw [List.nil_append]
        by_cases hL5 : CACHE_COMMENT_LINES ≤ (linesAfterInit env cache).length
        · have h2 : ((linesAfterInit env cache).take CACHE_COMMENT_LINES).length =
              CACHE_COMMENT_LINES := by
            simp [List.length_take]
            omega
          rw [h2, Nat.sub_self, List.drop_zero]
        · rw [hshort hL5]
          simp
      have hc1take :
          (((linesAfterInit env cache).take CACHE_COMMENT_LINES ++ u).take
            CACHE_COMMENT_LINES) =
          (linesAfterInit env cache).take CACHE_COMMENT_LINES := by
        rw [List.take_append_eq_append_take]
        rw [List.take_take]
        simp only [Nat.min_self]
        by_cases hL5 : CACHE_COMMENT_LINES ≤ (linesAfterInit env cache).length
        · have h2 : ((linesAfterInit env cache).take CACHE_COMMENT_LINES).length =
              CACHE_COMMENT_LINES := by
            simp [List.length_take]
            omega
          rw [h2, Nat.sub_self, List.take_zero, List.append_nil]
        · rw [hshort hL5]
          simp
      have hc1count :
          ((((linesAfterInit env cache).take CACHE_COMMENT_LINES ++ u)).drop
            CACHE_COMMENT_LINES).length = env.repos.length := by
        rw [hc1drop, hulen]
      have hinit : linesAfterInit env
          (some ((linesAfterInit env cache).take CACHE_COMMENT_LINES ++ u)) =
          (linesAfterInit env cache).take CACHE_COMMENT_LINES ++ u := by
        rw [linesAfterInit_eq]
        unfold init_cache_if_needed
        rw [hforce]
        simp only [Bool.false_eq_true, if_false]
        rw [if_neg (by omega)]
      unfold heavy_stats
      simp only [heavyStatsGo]
      rw [hinit, hc1drop,
        heavyLoop_replay env hhash env.repos
          ((linesAfterInit env cache).drop CACHE_COMMENT_LINES) u g 0 m a d tr2 hl]
      refine ⟨rfl, ?_, rfl⟩
      show some ((((linesAfterInit env cache).take CACHE_COMMENT_LINES ++ u)).take
          CACHE_COMMENT_LINES ++ u) =
        some ((linesAfterInit env cache).take CACHE_COMMENT_LINES ++ u)
      rw [hc1take]
    · exact ih (g + 1) _ _ r c1 hres hcache
    · have h2 : (Except.error e : Except HErr (Nat × Nat × Nat × Int)) = .ok r := hres
      simp at h2

/-- Claim C7: with the force flag unset and hexadecimal fingerprints
(whitespace-free, nonempty — the shape of every sha256 hexdigest),
running `heavy_stats` again on the cache file a successful run
wrote, with identical remote responses, succeeds with the identical aggregate
result, rewrites the byte-identical cache file, and performs no
history rescan (every repository takes the cache-valid path, zero
history-paging queries). -/
theorem heavy_stats_idempotent (env : Env)
    (hforce : env.forceCache = false)
    (hhash : ∀ s, goodChars (env.hash s).data)
    (cache : Option (List String)) (r : Nat × Nat × Nat × Int) (c1 : List String)
    (hres : (heavy_stats env cache).res = .ok r)
    (hcache : (heavy_stats env cache).cache = some c1) :
    (heavy_stats env (some c1)).res = .ok r
    ∧ (heavy_stats env (some c1)).cache = some c1
    ∧ (heavy_stats env (some c1)).tr.histPages = 0 :=
  heavyStatsGo_idem env hforce hhash 3 0 cache ⟨0, 0⟩ r c1 hres hcache

/-- Witness for C7: the run of `envA` from an absent cache writes
`cacheA1` and returns `(1, 10, 2, 8)`; the second run reproduces both
exactly with zero history-paging queries. -/
theorem heavy_stats_idempotent_witness :
    (envA.forceCache = false
     ∧ (∀ s, goodChars (envA.hash s).data)
     ∧ (heavy_stats envA none).res = .ok (1, 10, 2, 8)
     ∧ (heavy_stats envA none).cache = some cacheA1)
    ∧ ((heavy_stats envA (some cacheA1)).res = .ok (1, 10, 2, 8)
       ∧ (heavy_stats envA (some cacheA1)).cache = some cacheA1
       ∧ (heavy_stats envA (some cacheA1)).tr.histPages = 0) :=
  ⟨⟨rfl, fun _ => (⟨by decide, by decide⟩ : goodChars ("f0" : String).data), rfl, rfl⟩,
   heavy_stats_idempotent envA rfl
     (fun _ => (⟨by decide, by decide⟩ : goodChars ("f0" : String).data)) none
     (1, 10, 2, 8) cacheA1 rfl rfl⟩
